import Mathlib

/-!
Shallow embedding of the schema-driven parameter collection and invocation
engine of MCPProbe (the current main.go: flag set with a separate
call-timeout, interactive mode with guided parameter collection, error
categorisation, and result formatting).  Go strings are modelled as Lean
strings, Go float64 as exact rationals (the inputs settled here are exact
in binary64 as well), Go dynamic values as an inductive type, and the
stdin scanner as an explicit list of remaining lines.
-/

namespace MCPProbe

/-- JSON values as decoded by the encoding/json package; number tokens keep
their source lexeme (Go decodes them to float64, which is recovered below
when a decoded value is stored). -/
inductive Json where
  | null
  | bool (b : Bool)
  | num (lexeme : String)
  | str (s : String)
  | arr (elems : List Json)
  | obj (fields : List (String × Json))
deriving Repr

/-- Whitespace accepted between JSON tokens. -/
def jsonWs (c : Char) : Bool :=
  c == ' ' || c == '\t' || c == '\n' || c == '\r'

/-- Skip JSON inter-token whitespace. -/
def skipWs (cs : List Char) : List Char :=
  cs.dropWhile jsonWs

/-- The character with code 123 (opening curly bracket). -/
def lbrace : Char := Char.ofNat 123

/-- The character with code 125 (closing curly bracket). -/
def rbrace : Char := Char.ofNat 125

/-- Value of one hexadecimal digit. -/
def hexVal (c : Char) : Option Nat :=
  if '0' ≤ c && c ≤ '9' then some (c.toNat - 48)
  else if 'a' ≤ c && c ≤ 'f' then some (c.toNat - 87)
  else if 'A' ≤ c && c ≤ 'F' then some (c.toNat - 55)
  else none

/-- Single-character JSON string escapes, as escape-character and
replacement pairs. -/
def escTable : List (Char × Char) :=
  [('"', '"'), ('\\', '\\'), ('/', '/'),
   ('b', Char.ofNat 8), ('f', Char.ofNat 12),
   ('n', Char.ofNat 10), ('r', Char.ofNat 13), ('t', Char.ofNat 9)]

/-- Replacement for a single-character JSON string escape. -/
def escChar (c : Char) : Option Char := escTable.lookup c

/-- Parse the body of a JSON string (the opening quote already consumed),
returning the decoded string and the rest of the input.  Surrogate pairs in
backslash-u escapes are not recombined (irrelevant to the inputs settled here). -/
def parseJStrAux : List Char → List Char → Option (String × List Char)
  | [], _ => none
  | '"' :: rest, acc => some (String.mk acc.reverse, rest)
  | '\\' :: 'u' :: h1 :: h2 :: h3 :: h4 :: rest, acc =>
    match hexVal h1, hexVal h2, hexVal h3, hexVal h4 with
    | some a, some b, some c, some d =>
      parseJStrAux rest (Char.ofNat (((a * 16 + b) * 16 + c) * 16 + d) :: acc)
    | _, _, _, _ => none
  | '\\' :: e :: rest, acc =>
    match escChar e with
    | some c => parseJStrAux rest (c :: acc)
    | none => none
  | c :: rest, acc => parseJStrAux rest (c :: acc)

/-- Parse the optional fraction part of a JSON number, keeping its lexeme. -/
def fracPart : List Char → Option (List Char × List Char)
  | '.' :: t =>
    let ds := t.takeWhile Char.isDigit
    if ds.isEmpty then none else some ('.' :: ds, t.dropWhile Char.isDigit)
  | cs => some ([], cs)

/-- Parse the optional exponent part of a JSON number, keeping its lexeme. -/
def expPart : List Char → Option (List Char × List Char)
  | [] => some ([], [])
  | c :: t =>
    if c == 'e' || c == 'E' then
      let (sg, t1) : List Char × List Char :=
        match t with
        | '+' :: r => (['+'], r)
        | '-' :: r => (['-'], r)
        | _ => ([], t)
      let ds := t1.takeWhile Char.isDigit
      if ds.isEmpty then none
      else some (c :: (sg ++ ds), t1.dropWhile Char.isDigit)
    else some ([], c :: t)

/-- Parse a JSON number token, returning it with its lexeme. -/
def parseJNum (cs : List Char) : Option (Json × List Char) :=
  let (sgn, cs1) : List Char × List Char :=
    match cs with
    | '-' :: t => (['-'], t)
    | _ => ([], cs)
  let ds := cs1.takeWhile Char.isDigit
  let cs2 := cs1.dropWhile Char.isDigit
  if ds.isEmpty then none
  else
    match fracPart cs2 with
    | none => none
    | some (fr, cs3) =>
      match expPart cs3 with
      | none => none
      | some (ex, cs4) => some (.num (String.mk (sgn ++ ds ++ fr ++ ex)), cs4)

mutual

/-- Parse one JSON value, fuel-bounded (the fuel only limits nesting and
is chosen large enough for the whole input at the top level). -/
def parseJVal : Nat → List Char → Option (Json × List Char)
  | 0, _ => none
  | fuel + 1, cs =>
    match skipWs cs with
    | 'n' :: 'u' :: 'l' :: 'l' :: rest => some (.null, rest)
    | 't' :: 'r' :: 'u' :: 'e' :: rest => some (.bool true, rest)
    | 'f' :: 'a' :: 'l' :: 's' :: 'e' :: rest => some (.bool false, rest)
    | '"' :: rest =>
      match parseJStrAux rest [] with
      | some (s, r) => some (.str s, r)
      | none => none
    | '[' :: rest =>
      match skipWs rest with
      | ']' :: r2 => some (.arr [], r2)
      | cs2 => parseJArrItems fuel cs2 []
    | c :: rest =>
      if c == lbrace then
        match skipWs rest with
        | [] => none
        | d :: r2 =>
          if d == rbrace then some (.obj [], r2)
          else parseJObjItems fuel (d :: r2) []
      else parseJNum (c :: rest)
    | [] => none

/-- Parse the comma-separated items of a JSON array (after the opening
bracket, first item pending). -/
def parseJArrItems : Nat → List Char → List Json → Option (Json × List Char)
  | 0, _, _ => none
  | fuel + 1, cs, acc =>
    match parseJVal fuel cs with
    | none => none
    | some (v, rest) =>
      match skipWs rest with
      | ',' :: r2 => parseJArrItems fuel r2 (v :: acc)
      | ']' :: r2 => some (.arr (v :: acc).reverse, r2)
      | _ => none

/-- Parse the comma-separated members of a JSON object (after the opening
bracket, first member pending). -/
def parseJObjItems : Nat → List Char → List (String × Json) → Option (Json × List Char)
  | 0, _, _ => none
  | fuel + 1, cs, acc =>
    match skipWs cs with
    | '"' :: rest =>
      match parseJStrAux rest [] with
      | none => none
      | some (k, r1) =>
        match skipWs r1 with
        | ':' :: r2 =>
          match parseJVal fuel r2 with
          | none => none
          | some (v, r3) =>
            match skipWs r3 with
            | ',' :: r4 => parseJObjItems fuel r4 ((k, v) :: acc)
            | c :: r4 =>
              if c == rbrace then some (.obj ((k, v) :: acc).reverse, r4) else none
            | [] => none
        | _ => none
    | _ => none

end

/-- Strict whole-input JSON parse, the model of a json.Unmarshal call into
an interface value: leading and trailing whitespace is allowed, anything
else after the value is an error. -/
def parseJson (s : String) : Option Json :=
  match parseJVal (s.data.length + 1) s.data with
  | some (j, rest) => if (skipWs rest).isEmpty then some j else none
  | none => none

/-- Dynamic Go values as stored into the parameter map (map from string to
the empty interface).  Decoded JSON containers are kept as JSON forests;
a comma-split fallback produces a slice of strings, a distinct dynamic
type in Go, hence a distinct constructor here. -/
inductive GoValue where
  | str (s : String)
  | int (n : Int)
  | float (q : ℚ)
  | bool (b : Bool)
  | nil
  | strList (xs : List String)
  | jsonArr (xs : List Json)
  | jsonMap (fields : List (String × Json))
deriving Repr

/-- Numeric value of a digit run. -/
def digitsToNat (ds : List Char) : Nat :=
  ds.foldl (fun a c => a * 10 + (c.toNat - 48)) 0

/-- The rational sgn * m * 10 ^ (e - fracLen): a decimal literal with
fracLen digits after the point and decimal exponent e. -/
def ratOfDecimal (sgn : Int) (m : Nat) (fracLen : Nat) (e : Int) : ℚ :=
  let ex : Int := e - (fracLen : Int)
  if 0 ≤ ex then mkRat (sgn * (m : Int) * ((10 ^ ex.toNat : Nat) : Int)) 1
  else mkRat (sgn * (m : Int)) (10 ^ (-ex).toNat)

/-- Model of strconv.ParseFloat(s, 64): optional sign, decimal digits with
optional fraction and exponent, the whole string consumed.  Values are kept
as exact rationals instead of binary64 (the inputs settled here are exact
either way); the special forms Inf, NaN and hexadecimal floats are outside
the model. -/
def parseGoFloat (s : String) : Option ℚ :=
  let (sgn, cs1) : Int × List Char :=
    match s.data with
    | '+' :: t => (1, t)
    | '-' :: t => (-1, t)
    | cs => (1, cs)
  let ds1 := cs1.takeWhile Char.isDigit
  let cs2 := cs1.dropWhile Char.isDigit
  let (ds2, cs3) : List Char × List Char :=
    match cs2 with
    | '.' :: t => (t.takeWhile Char.isDigit, t.dropWhile Char.isDigit)
    | _ => ([], cs2)
  if ds1.isEmpty && ds2.isEmpty then none
  else
    match cs3 with
    | [] => some (ratOfDecimal sgn (digitsToNat (ds1 ++ ds2)) ds2.length 0)
    | c :: t =>
      if c == 'e' || c == 'E' then
        let (esgn, t1) : Int × List Char :=
          match t with
          | '+' :: r => (1, r)
          | '-' :: r => (-1, r)
          | r => (1, r)
        let eds := t1.takeWhile Char.isDigit
        let t2 := t1.dropWhile Char.isDigit
        if eds.isEmpty || !t2.isEmpty then none
        else some (ratOfDecimal sgn (digitsToNat (ds1 ++ ds2)) ds2.length (esgn * (digitsToNat eds : Int)))
      else none

/-- Truncation toward zero, the Go conversion from float64 to int. -/
def ratTrunc (q : ℚ) : Int := Int.tdiv q.num (Int.ofNat q.den)

/-- Rational value of a decoded JSON number lexeme (Go decodes JSON numbers
to float64); the lexeme always parses, the default is unreachable. -/
def jsonNumToRat (lexeme : String) : ℚ := (parseGoFloat lexeme).getD 0

/-- Shallow conversion of a decoded JSON value to the dynamic Go value that
json.Unmarshal stores in an interface slot. -/
def GoValue.ofJson : Json → GoValue
  | .null => .nil
  | .bool b => .bool b
  | .num lex => .float (jsonNumToRat lex)
  | .str s => .str s
  | .arr xs => .jsonArr xs
  | .obj fs => .jsonMap fs

/-- Model of json.Unmarshal(input, out) for out a slice of interface values:
succeeds exactly on a whole-input JSON array (or null, which leaves the
slice nil without an error). -/
def parseGoArray (s : String) : Option (List Json) :=
  match parseJson s with
  | some (.arr xs) => some xs
  | some .null => some []
  | _ => none

/-- Model of json.Unmarshal(input, out) for out a map from string to
interface values: succeeds exactly on a whole-input JSON object (or null,
which leaves the map nil without an error). -/
def parseGoObject (s : String) : Option (List (String × Json)) :=
  match parseJson s with
  | some (.obj fs) => some fs
  | some .null => some []
  | _ => none

/-- Model of strings.Split(s, comma-separator). -/
def splitCommaAux : List Char → List Char → List String
  | [], acc => [String.mk acc.reverse]
  | c :: cs, acc =>
    if c == ',' then String.mk acc.reverse :: splitCommaAux cs []
    else splitCommaAux cs (c :: acc)

/-- Go strings.Split on the comma separator. -/
def goSplitComma (s : String) : List String := splitCommaAux s.data []

/-- ASCII lower-casing of one character (the inputs settled here are ASCII;
Go strings.ToLower is Unicode-aware). -/
def asciiLower (c : Char) : Char :=
  if 'A' ≤ c && c ≤ 'Z' then Char.ofNat (c.toNat + 32) else c

/-- Model of strings.ToLower for ASCII input. -/
def goToLower (s : String) : String := String.mk (s.data.map asciiLower)

/-- Whitespace trimmed by strings.TrimSpace (ASCII part of unicode.IsSpace). -/
def goIsSpace (c : Char) : Bool :=
  c == ' ' || c == '\t' || c == '\n' || c == '\r' || c == Char.ofNat 11 || c == Char.ofNat 12

/-- Model of strings.TrimSpace. -/
def goTrimSpace (s : String) : String :=
  String.mk (((s.data.dropWhile goIsSpace).reverse.dropWhile goIsSpace).reverse)

/-- Result of one parameter collection: the collected parameter list plus
the unread input lines, or an error message plus the unread input lines.
The Go code returns (params, error) and advances the shared scanner; the
unread lines make that scanner state explicit. -/
inductive CollectResult where
  | ok (params : List (String × GoValue)) (rest : List String)
  | err (msg : String) (rest : List String)
deriving Repr

/-- Field lookup in a decoded JSON object, the model of indexing the
schema map. -/
def jlookup (fields : List (String × Json)) (key : String) : Option Json :=
  match fields.find? (fun f => f.1 == key) with
  | some f => some f.2
  | none => none

/-- Declared type of one property: the type field if it is a string,
the string type otherwise (source: propMap type assertion with default). -/
def propTypeOf (propSchema : Json) : String :=
  match propSchema with
  | .obj fs =>
    match jlookup fs "type" with
    | some (.str t) => t
    | _ => "string"
  | _ => "string"

/-- Required-set of the schema: the string entries of the required array
(non-string entries and a non-array field are ignored). -/
def requiredOf (fields : List (String × Json)) : List String :=
  match jlookup fields "required" with
  | some (.arr xs) => xs.filterMap fun x => match x with | .str s => some s | _ => none
  | _ => []

/-- The error text for a required parameter left empty after the re-prompt. -/
def requiredEmptyMsg (name : String) : String :=
  "required parameter \x27" ++ name ++ "\x27 cannot be empty"

/-- Coercion of one raw input by declared property type, the type switch of
collectToolParameters: number and integer parse as a float (integer
truncating), boolean matches truthy tokens case-insensitively, array tries
a strict JSON array parse then falls back to a comma split into strings,
object requires a strict JSON object parse, everything else stores the
input verbatim as a string. -/
def coerceParam (propName propType input : String) : Except String GoValue :=
  if propType == "number" || propType == "integer" then
    match parseGoFloat input with
    | some num =>
      if propType == "integer" then .ok (.int (ratTrunc num)) else .ok (.float num)
    | none => .error ("invalid number for " ++ propName ++ ": " ++ input)
  else if propType == "boolean" then
    let lower := goToLower input
    .ok (.bool (lower == "true" || lower == "yes" || lower == "y" || lower == "1"))
  else if propType == "array" then
    match parseGoArray input with
    | some xs => .ok (.jsonArr xs)
    | none => .ok (.strList (goSplitComma input))
  else if propType == "object" then
    match parseGoObject input with
    | some fs => .ok (.jsonMap fs)
    | none => .error ("invalid JSON object for " ++ propName ++ ": " ++ input)
  else .ok (.str input)

/-- The property loop of collectToolParameters: for each property prompt for
one line (a missing line, the scanner running dry, returns what was
collected so far); an empty trimmed line skips an optional property, and on
a required property triggers exactly one re-prompt, a second empty line
aborting with the required-empty error; a non-empty line is coerced by the
declared type, a coercion error aborting the whole collection. -/
def collectProps : List (String × Json) → List String → List (String × GoValue) → List String → CollectResult
  | [], _, params, inputs => .ok params inputs
  | _ :: _, _, params, [] => .ok params []
  | (name, psch) :: props, req, params, line :: rest =>
    let input := goTrimSpace line
    if input == "" then
      if req.contains name then
        match rest with
        | [] => .ok params []
        | line2 :: rest2 =>
          let input2 := goTrimSpace line2
          if input2 == "" then .err (requiredEmptyMsg name) rest2
          else
            match coerceParam name (propTypeOf psch) input2 with
            | .error e => .err e rest2
            | .ok v => collectProps props req (params ++ [(name, v)]) rest2
      else collectProps props req params rest
    else
      match coerceParam name (propTypeOf psch) input with
      | .error e => .err e rest
      | .ok v => collectProps props req (params ++ [(name, v)]) rest

/-- Model of parseToolParameters: the empty string and the literal empty
object map to an empty parameter map without an error; anything else is a
strict JSON parse that must produce an object (or null, which Go leaves as
a nil map without an error).  The wrapped json error text is abstracted to
the constant message prefix. -/
def parseToolParameters (paramsJSON : String) : Except String (List (String × Json)) :=
  if paramsJSON == "" || paramsJSON == "\x7b\x7d" then .ok []
  else
    match parseJson paramsJSON with
    | some (.obj fs) => .ok fs
    | some .null => .ok []
    | _ => .error ("failed to parse parameters JSON: " ++ paramsJSON)

/-- The free-form JSON entry branch of collectToolParameters, taken when the
marshalled schema cannot be decoded into a map: one line is read (a missing
or empty line yields the empty parameter set) and parsed as a JSON object. -/
def freeFormEntry (inputs : List String) : CollectResult :=
  match inputs with
  | [] => .ok [] []
  | line :: rest =>
    let input := goTrimSpace line
    if input == "" then .ok [] rest
    else
      match parseToolParameters input with
      | .ok ps => .ok (ps.map fun p => (p.1, GoValue.ofJson p.2)) rest
      | .error e => .err e rest

/-- Model of collectToolParameters.  The schema argument is the value
json.Marshal produced from the tool's input schema (marshalling a schema
struct cannot fail); the null and empty-object comparisons mirror the
string comparisons against the marshalled bytes.  A schema that is not a
JSON object models the case where unmarshalling into a map fails; an
object without a non-empty properties object prompts for nothing.
Properties are walked in their stored order (Go iterates the map in
unspecified order; the claims settled here do not depend on it). -/
def collectToolParameters (schema : Json) (inputs : List String) : CollectResult :=
  match schema with
  | .null => .ok [] inputs
  | .obj [] => .ok [] inputs
  | .obj fields =>
    match jlookup fields "properties" with
    | some (.obj props) =>
      if props.isEmpty then .ok [] inputs
      else collectProps props (requiredOf fields) [] inputs
    | _ => .ok [] inputs
  | _ => freeFormEntry inputs

/-- Whether the pattern is a leading segment of the character list. -/
def leadEq : List Char → List Char → Bool
  | _, [] => true
  | [], _ :: _ => false
  | c :: cs, p :: ps => c == p && leadEq cs ps

/-- Substring search over character lists. -/
def containsAux : List Char → List Char → Bool
  | [], pat => leadEq [] pat
  | c :: cs, pat => leadEq (c :: cs) pat || containsAux cs pat

/-- Model of strings.Contains (the empty pattern is contained everywhere). -/
def goContains (s pat : String) : Bool := containsAux s.data pat.data

/-- The error taxonomy of the tool-call error handler. -/
inductive ErrorCategory where
  | NotFound
  | ParameterValidationRequiredMissing
  | ParameterValidation
  | Timeout
  | SessionExpired
  | Unknown
deriving Repr, DecidableEq

/-- The categorisation switch of handleToolCallError: first matching
substring rule wins, in source order; the session-expired rule matches the
exact casing of the session-ID message. -/
def classifyToolCallError (errStr : String) : ErrorCategory :=
  if goContains errStr "not found" then .NotFound
  else if goContains errStr "parameter" && goContains errStr "required" then .ParameterValidationRequiredMissing
  else if goContains errStr "parameter" then .ParameterValidation
  else if goContains errStr "timeout" then .Timeout
  else if goContains errStr "Invalid session ID" then .SessionExpired
  else .Unknown

/-- One item of a tool-call result, the tagged variant the renderer
switches on; the unknown arm keeps the dynamic type tag the source prints. -/
inductive ContentItem where
  | text (s : String)
  | image (mimeType : String)
  | audio (mimeType : String)
  | unknown (typeTag : String)
deriving Repr

/-- The shape of a tool-call result that the formatter consumes. -/
structure CallToolResult where
  isError : Bool
  content : List ContentItem
deriving Repr

/-- Lines printed for one content item by the type switch of
formatToolResult: text items print their text unconditionally; image,
audio and unknown items print their one-line descriptor only in verbose
mode. -/
def renderContentItem (verbose : Bool) : ContentItem → List String
  | .text s => [s]
  | .image m => if verbose then ["Image (MIME: " ++ m ++ ")"] else []
  | .audio m => if verbose then ["Audio (MIME: " ++ m ++ ")"] else []
  | .unknown t => if verbose then ["Unknown content type: " ++ t] else []

/-- The per-item prefix of the content loop: a numbered header when there
is more than one item, a blank line otherwise. -/
def contentItemBlock (total : Nat) (verbose : Bool) (p : Nat × ContentItem) : List String :=
  (if total > 1 then ["Content " ++ toString (p.1 + 1) ++ ":"] else [""]) ++
    renderContentItem verbose p.2

/-- Model of formatToolResult: the banner, the success or failure header,
then the content loop in arrival order.  Standard output is modelled as
the list of printed lines. -/
def formatToolResult (res : CallToolResult) (verbose : Bool) : List String :=
  ["=== Tool Call Result ==="] ++
  (if res.isError then ["Tool call failed:"] else ["Tool call succeeded:"]) ++
  (if res.content.isEmpty then []
   else (res.content.enum.map (contentItemBlock res.content.length verbose)).flatten)

/-- Word splitting for strings.Fields: maximal runs of non-whitespace. -/
def fieldsAux : List Char → List Char → List String
  | [], acc => if acc.isEmpty then [] else [String.mk acc.reverse]
  | c :: cs, acc =>
    if goIsSpace c then
      if acc.isEmpty then fieldsAux cs []
      else String.mk acc.reverse :: fieldsAux cs []
    else fieldsAux cs (c :: acc)

/-- Model of strings.Fields. -/
def goFields (s : String) : List String := fieldsAux s.data []

/-- Digit run to a number, failing on an empty or non-digit run. -/
def natOfDigits (ds : List Char) : Option Nat :=
  if ds.isEmpty then none
  else if ds.all Char.isDigit then some (digitsToNat ds) else none

/-- Model of strconv.Atoi: optional single sign then decimal digits, the
whole string consumed.  The result is an unbounded integer (Go errors
beyond 64 bits; the tool indices settled here are far below that bound). -/
def goAtoi (s : String) : Option Int :=
  match s.data with
  | [] => none
  | c :: ds =>
    if c == '+' then (natOfDigits ds).map fun n => (n : Int)
    else if c == '-' then (natOfDigits ds).map fun n => -(n : Int)
    else (natOfDigits (c :: ds)).map fun n => (n : Int)

/-- What one scanned line makes the interactive loop do next. -/
inductive ReplAction where
  | exit
  | help
  | list
  | guided
  | invoke (idx : Nat)
  | invalidNumber (tok : String)
  | unknown (cmd : String)
  | skip
deriving Repr, DecidableEq

/-- The command dispatch of one iteration of interactiveModeWithTimeout:
trim the line (an empty line is skipped), split it into fields, then
switch on the first word; a call command with an argument and a bare
numeric token both resolve an in-range index to a direct invocation. -/
def processReplCommand (numTools : Nat) (line : String) : ReplAction :=
  let input := goTrimSpace line
  if input == "" then .skip
  else
    let parts := goFields input
    let command := parts.headD ""
    let args := parts.tail
    if command == "exit" || command == "quit" || command == "q" then .exit
    else if command == "help" || command == "h" || command == "?" then .help
    else if command == "list" || command == "ls" || command == "l" then .list
    else if command == "call" || command == "c" then
      match args with
      | a :: _ =>
        match goAtoi a with
        | some num =>
          if 0 < num && num ≤ (numTools : Int) then .invoke (num - 1).toNat
          else .invalidNumber a
        | none => .invalidNumber a
      | [] => .guided
    else
      match goAtoi command with
      | some num =>
        if 0 < num && num ≤ (numTools : Int) then .invoke (num - 1).toNat
        else .unknown command
      | none => .unknown command

/-- A cancellable context: its timeout budget and a creation serial number
(each context.WithTimeout call produces a fresh scope). -/
structure Scope where
  budget : Nat
  sid : Nat
deriving Repr, DecidableEq

/-- A tool descriptor: name, description and the marshalled input schema. -/
structure Tool where
  name : String
  description : String
  inputSchema : Json
deriving Repr

/-- Observable events of an interactive session: a call submitted to the
protocol client under some scope, a parameter collection that failed before
any submission, and the informational commands. -/
inductive Event where
  | submit (toolName : String) (args : List (String × GoValue)) (scope : Scope)
  | collectFailed (toolName : String) (msg : String)
  | listed
  | helped
  | unknownCmd (cmd : String)
  | invalidNum (tok : String)
deriving Repr

/-- Model of callToolDirectlyWithTimeout: a fresh scope bounded by the call
timeout is created first, then parameters are collected; only a successful
collection submits the call.  Returns the events and the unread input. -/
def callToolWithTimeout (callTimeout ctr : Nat) (tool : Tool) (inputs : List String) :
    List Event × List String :=
  match collectToolParameters tool.inputSchema inputs with
  | .ok ps rest => ([.submit tool.name ps (Scope.mk callTimeout ctr)], rest)
  | .err msg rest => ([.collectFailed tool.name msg], rest)

/-- The interactive loop, fuel-bounded: each iteration scans one command
line; every direct or guided invocation creates the next fresh scope (the
counter advances whether or not collection succeeds, mirroring the deferred
cancel of the per-call context).  The fuel only needs to cover the number
of input lines, since every iteration consumes at least one. -/
def runReplFuel : Nat → Nat → List Tool → List String → Nat → List Event
  | 0, _, _, _, _ => []
  | _ + 1, _, _, [], _ => []
  | fuel + 1, callTimeout, tools, line :: rest, ctr =>
    match processReplCommand tools.length line with
    | .skip => runReplFuel fuel callTimeout tools rest ctr
    | .exit => []
    | .help => .helped :: runReplFuel fuel callTimeout tools rest ctr
    | .list => .listed :: runReplFuel fuel callTimeout tools rest ctr
    | .unknown s => .unknownCmd s :: runReplFuel fuel callTimeout tools rest ctr
    | .invalidNumber s => .invalidNum s :: runReplFuel fuel callTimeout tools rest ctr
    | .invoke idx =>
      let out := callToolWithTimeout callTimeout ctr (tools.getD idx (Tool.mk "" "" Json.null)) rest
      out.1 ++ runReplFuel fuel callTimeout tools out.2 (ctr + 1)
    | .guided =>
      match rest with
      | [] => []
      | sel :: rest2 =>
        let s := goTrimSpace sel
        if s == "cancel" || s == "" then runReplFuel fuel callTimeout tools rest2 ctr
        else
          match goAtoi s with
          | some num =>
            if 0 < num && num ≤ (tools.length : Int) then
              let out := callToolWithTimeout callTimeout ctr
                (tools.getD (num - 1).toNat (Tool.mk "" "" Json.null)) rest2
              out.1 ++ runReplFuel fuel callTimeout tools out.2 (ctr + 1)
            else .invalidNum s :: runReplFuel fuel callTimeout tools rest2 ctr
          | none => .invalidNum s :: runReplFuel fuel callTimeout tools rest2 ctr

/-- An interactive session over a finite input script, with fresh scope
serials starting at zero. -/
def runRepl (callTimeout : Nat) (tools : List Tool) (lines : List String) : List Event :=
  runReplFuel lines.length callTimeout tools lines 0

/-- The configuration the mode dispatch consumes: the two timeout flags
and the three intent flags. -/
structure Config where
  timeout : Nat
  callTimeout : Nat
  listOnly : Bool
  callTool : String
  interactive : Bool
deriving Repr

/-- Which execution path runs and which timeout bounds its context. -/
inductive ModeCtx where
  | listOnlyCtx (budget : Nat)
  | directCall (budget : Nat)
  | interactiveSession (callBudget : Nat)
  | discovery (budget : Nat)
deriving Repr, DecidableEq

/-- The execution-mode switch of main: list-only and discovery run under
the connection timeout, a direct call runs under the call timeout, and
interactive mode receives the call timeout for its per-call scopes. -/
def dispatchMode (cfg : Config) : ModeCtx :=
  if cfg.listOnly then .listOnlyCtx cfg.timeout
  else if cfg.callTool != "" then .directCall cfg.callTimeout
  else if cfg.interactive then .interactiveSession cfg.callTimeout
  else .discovery cfg.timeout

/-- Default of the connection-timeout flag, in seconds. -/
def defaultTimeout : Nat := 30

/-- Default of the call-timeout flag, in seconds. -/
def defaultCallTimeout : Nat := 300

/-- Serial numbers of the scopes of submitted calls, in order. -/
def submitSids (evs : List Event) : List Nat :=
  evs.filterMap fun e =>
    match e with
    | .submit _ _ sc => some sc.sid
    | _ => none

/-- Whether every submitted call's scope carries the given budget. -/
def submitBudgetsAll (callTimeout : Nat) (evs : List Event) : Bool :=
  evs.all fun e =>
    match e with
    | .submit _ _ sc => sc.budget == callTimeout
    | _ => true

/-- A marshalled schema with a single required property of the given name
and declared type. -/
def oneReqSchema (name ty : String) : Json :=
  Json.obj [("type", Json.str "object"),
            ("properties", Json.obj [(name, Json.obj [("type", Json.str ty)])]),
            ("required", Json.arr [Json.str name])]

/-- Fields of a marshalled schema with two required string properties. -/
def twoReqFields : List (String × Json) :=
  [("type", Json.str "object"),
   ("properties", Json.obj [("alpha", Json.obj [("type", Json.str "string")]),
                            ("beta", Json.obj [("type", Json.str "string")])]),
   ("required", Json.arr [Json.str "alpha", Json.str "beta"])]

/-- A marshalled schema with two required string properties. -/
def twoReqSchema : Json := Json.obj twoReqFields

/-- Sign or digit characters, the alphabet of successful Atoi inputs. -/
def signDigitB (c : Char) : Bool := c == '+' || c == '-' || c.isDigit

/-- The per-session scope discipline: every submitted call runs under a
scope with the call-timeout budget, scope serials of submitted calls are
strictly increasing (hence pairwise distinct and fresh), and none precedes
the current counter. -/
def scopeInvariant (callTimeout ctr : Nat) (evs : List Event) : Prop :=
  submitBudgetsAll callTimeout evs = true ∧
  List.Chain' (· < ·) (submitSids evs) ∧
  ∀ x ∈ submitSids evs, ctr ≤ x

/-- C1: in the guided collection path, a required property left empty is
re-prompted exactly once, a second empty input aborts the collection with
the required-missing failure (so classified), and the call is never
submitted to the protocol client: the session trace holds only the
collection failure and no submit event. -/
theorem c1_required_double_empty_aborts :
    (∀ name ty : String,
      collectToolParameters (oneReqSchema name ty) ["", ""]
        = CollectResult.err (requiredEmptyMsg name) []) ∧
    collectToolParameters (oneReqSchema "message" "string") ["", "Hello"]
      = CollectResult.ok [("message", GoValue.str "Hello")] [] ∧
    classifyToolCallError (requiredEmptyMsg "message")
      = ErrorCategory.ParameterValidationRequiredMissing ∧
    runRepl 300 [Tool.mk "echo" "text" (oneReqSchema "message" "string")] ["1", "", ""]
      = [Event.collectFailed "echo" (requiredEmptyMsg "message")] := by
  refine ⟨?_, rfl, rfl, rfl⟩
  intro name ty
  show collectProps [(name, Json.obj [("type", Json.str ty)])] [name] [] ["", ""] = _
  simp [collectProps, List.contains, goTrimSpace]

/-- C3 counterexample: the session-expired rule is case-sensitive, so the
all-lower-case message classifies as Unknown, not SessionExpired. -/
theorem c3_counterexample :
    classifyToolCallError "invalid session id" = ErrorCategory.Unknown ∧
    classifyToolCallError "invalid session id" ≠ ErrorCategory.SessionExpired := by
  exact ⟨rfl, by decide⟩

/-- C3 amended: the classifier assigns exactly one category by substring
matching in source order (not-found, then parameter with required, then
parameter, then timeout, then the exactly-cased session-ID message), and
any message matching none of the rules is Unknown; classification is a
total function. -/
theorem c3_amended_classifier :
    classifyToolCallError "tool xyz not found" = ErrorCategory.NotFound ∧
    classifyToolCallError "required parameter missing" = ErrorCategory.ParameterValidationRequiredMissing ∧
    classifyToolCallError "invalid parameter value" = ErrorCategory.ParameterValidation ∧
    classifyToolCallError "request timeout exceeded" = ErrorCategory.Timeout ∧
    classifyToolCallError "transport: Invalid session ID" = ErrorCategory.SessionExpired ∧
    classifyToolCallError "parameter not found" = ErrorCategory.NotFound ∧
    (∀ s : String, goContains s "not found" = false → goContains s "parameter" = false →
      goContains s "timeout" = false → goContains s "Invalid session ID" = false →
      classifyToolCallError s = ErrorCategory.Unknown) := by
  refine ⟨rfl, rfl, rfl, rfl, rfl, rfl, ?_⟩
  intro s h1 h2 h3 h4
  simp [classifyToolCallError, h1, h2, h3, h4]

/-- C3 amended, witness: a message matching no rule classifies as Unknown. -/
theorem c3_amended_classifier_witness :
    goContains "boom" "not found" = false ∧ goContains "boom" "parameter" = false ∧
    goContains "boom" "timeout" = false ∧ goContains "boom" "Invalid session ID" = false ∧
    classifyToolCallError "boom" = ErrorCategory.Unknown :=
  ⟨rfl, rfl, rfl, rfl, c3_amended_classifier.2.2.2.2.2.2 "boom" rfl rfl rfl rfl⟩

/-- C4 counterexample: with verbose output disabled, an image item renders
no descriptor line at all; the formatter output for a one-image result
holds only the banner, the status line and the blank separator, so the
item is silently dropped rather than producing one rendered line. -/
theorem c4_counterexample :
    formatToolResult (CallToolResult.mk false [ContentItem.image "image/png"]) false
      = ["=== Tool Call Result ===", "Tool call succeeded:", ""] ∧
    renderContentItem false (ContentItem.image "image/png") = [] :=
  ⟨rfl, rfl⟩

/-- C4 amended: when verbose output is enabled every content item renders
exactly one line, in arrival order, with the success or failure header
first (text its literal text, image and audio a one-line media-type
descriptor, an unrecognized tag a one-line notice); with verbose disabled
text still renders but image, audio and unrecognized items are skipped. -/
theorem c4_amended_formatter :
    (∀ item : ContentItem, (renderContentItem true item).length = 1) ∧
    (∀ s, renderContentItem true (ContentItem.text s) = [s]) ∧
    (∀ m, renderContentItem true (ContentItem.image m) = ["Image (MIME: " ++ m ++ ")"]) ∧
    (∀ m, renderContentItem true (ContentItem.audio m) = ["Audio (MIME: " ++ m ++ ")"]) ∧
    (∀ t, renderContentItem true (ContentItem.unknown t) = ["Unknown content type: " ++ t]) ∧
    (∀ s, renderContentItem false (ContentItem.text s) = [s]) ∧
    (∀ m, renderContentItem false (ContentItem.image m) = []) ∧
    (∀ m, renderContentItem false (ContentItem.audio m) = []) ∧
    (∀ t, renderContentItem false (ContentItem.unknown t) = []) ∧
    (∀ (res : CallToolResult) (verbose : Bool),
      (formatToolResult res verbose).head? = some "=== Tool Call Result ===") ∧
    formatToolResult
        (CallToolResult.mk false
          [ContentItem.text "hello", ContentItem.image "image/png", ContentItem.unknown "map"]) true
      = ["=== Tool Call Result ===", "Tool call succeeded:", "Content 1:", "hello",
         "Content 2:", "Image (MIME: image/png)", "Content 3:", "Unknown content type: map"] := by
  refine ⟨?_, fun _ => rfl, fun _ => rfl, fun _ => rfl, fun _ => rfl, fun _ => rfl,
    fun _ => rfl, fun _ => rfl, fun _ => rfl, fun _ _ => rfl, rfl⟩
  intro item
  cases item <;> rfl

/-- C6 counterexample: an empty marshalled schema (and likewise an object
schema without a properties mapping) makes the collector return the empty
parameter set immediately, leaving the input untouched, instead of
offering the free-form JSON entry, which on the same input would have
produced a non-empty parameter set. -/
theorem c6_counterexample :
    collectToolParameters (Json.obj []) ["\x7b\"a\":1\x7d"]
      = CollectResult.ok [] ["\x7b\"a\":1\x7d"] ∧
    collectToolParameters (Json.obj [("type", Json.str "object")]) ["\x7b\"a\":1\x7d"]
      = CollectResult.ok [] ["\x7b\"a\":1\x7d"] ∧
    freeFormEntry ["\x7b\"a\":1\x7d"] = CollectResult.ok [("a", GoValue.float 1)] [] :=
  ⟨rfl, rfl, rfl⟩

/-- C6 amended: only a schema that is not decodable as a JSON object takes
the free-form JSON entry (where a missing or empty line yields the empty
parameter set and a JSON object line is parsed); a null or empty schema,
or one without a non-empty properties mapping, yields the empty parameter
set at once without consuming input; none of these paths raise an error. -/
theorem c6_amended_schema_fallback :
    (∀ lines, collectToolParameters Json.null lines = CollectResult.ok [] lines) ∧
    (∀ lines, collectToolParameters (Json.obj []) lines = CollectResult.ok [] lines) ∧
    (∀ lines, collectToolParameters (Json.obj [("type", Json.str "object")]) lines
      = CollectResult.ok [] lines) ∧
    collectToolParameters (Json.str "oops") [] = CollectResult.ok [] [] ∧
    (∀ rest, collectToolParameters (Json.str "oops") ("" :: rest) = CollectResult.ok [] rest) ∧
    collectToolParameters (Json.str "oops") ["\x7b\"a\":1\x7d"]
      = CollectResult.ok [("a", GoValue.float 1)] [] :=
  ⟨fun _ => rfl, fun _ => rfl, fun _ => rfl, rfl, fun _ => rfl, rfl⟩

/-- C8: array coercion first attempts a strict JSON array parse and keeps
the decoded elements; when the parse fails the raw input is split on
commas into strings, so the JSON input yields the two decoded strings and
the invalid-JSON comma list yields the three split pieces. -/
theorem c8_array_coercion :
    coerceParam "tags" "array" "[\"a\",\"b\"]"
      = Except.ok (GoValue.jsonArr [Json.str "a", Json.str "b"]) ∧
    coerceParam "tags" "array" "a,b,c" = Except.ok (GoValue.strList ["a", "b", "c"]) ∧
    (∀ name s xs, parseGoArray s = some xs →
      coerceParam name "array" s = Except.ok (GoValue.jsonArr xs)) ∧
    (∀ name s, parseGoArray s = none →
      coerceParam name "array" s = Except.ok (GoValue.strList (goSplitComma s))) := by
  refine ⟨rfl, rfl, ?_, ?_⟩
  · intro name s xs h
    simp [coerceParam, h]
  · intro name s h
    simp [coerceParam, h]

/-- C8 witness: the comma-split fallback at a concrete invalid-JSON input. -/
theorem c8_array_coercion_witness :
    parseGoArray "a,b,c" = none ∧
    coerceParam "p" "array" "a,b,c" = Except.ok (GoValue.strList ["a", "b", "c"]) :=
  ⟨rfl, c8_array_coercion.2.2.2 "p" "a,b,c" rfl⟩

/-- C9: number and integer inputs parse as a float (modelled exactly); a
parse failure is a coercion error carrying the property name; integer
truncates toward zero so the input seven stores the integer seven, not a
float, while number keeps the fraction. -/
theorem c9_number_coercion :
    coerceParam "x" "integer" "7" = Except.ok (GoValue.int 7) ∧
    coerceParam "x" "number" "7.5" = Except.ok (GoValue.float (15 / 2 : ℚ)) ∧
    GoValue.int 7 ≠ GoValue.float 7 ∧
    (∀ name s q, parseGoFloat s = some q →
      coerceParam name "integer" s = Except.ok (GoValue.int (ratTrunc q)) ∧
      coerceParam name "number" s = Except.ok (GoValue.float q)) ∧
    (∀ name s, parseGoFloat s = none →
      coerceParam name "integer" s = Except.error ("invalid number for " ++ name ++ ": " ++ s) ∧
      coerceParam name "number" s = Except.error ("invalid number for " ++ name ++ ": " ++ s)) ∧
    coerceParam "x" "integer" "7.9" = Except.ok (GoValue.int 7) := by
  have h75 : (15 / 2 : ℚ) = mkRat 75 10 := by norm_num [mkRat]
  refine ⟨rfl, by rw [h75]; rfl, fun h => GoValue.noConfusion h, ?_, ?_, rfl⟩
  · intro name s q h
    exact ⟨by simp [coerceParam, h], by simp [coerceParam, h]⟩
  · intro name s h
    exact ⟨by simp [coerceParam, h], by simp [coerceParam, h]⟩

/-- C9 witness: the float-parse rule applied at a concrete fractional input. -/
theorem c9_number_coercion_witness :
    parseGoFloat "2.5" = some (5 / 2 : ℚ) ∧
    coerceParam "n" "integer" "2.5" = Except.ok (GoValue.int 2) ∧
    coerceParam "n" "number" "2.5" = Except.ok (GoValue.float (5 / 2 : ℚ)) := by
  have h25 : (5 / 2 : ℚ) = mkRat 25 10 := by norm_num [mkRat]
  have h : parseGoFloat "2.5" = some (5 / 2 : ℚ) := by rw [h25]; rfl
  have h2 := c9_number_coercion.2.2.2.1 "n" "2.5" (5 / 2 : ℚ) h
  refine ⟨h, ?_, h2.2⟩
  rw [h2.1, h25]
  rfl

/-- C10 counterexample: an empty input on a required string property is not
passed to coercion (which would have stored the empty string, as the second
conjunct shows coercion of the empty string succeeds); instead a second
empty input aborts the collection with the required-missing error. -/
theorem c10_counterexample :
    collectToolParameters (oneReqSchema "message" "string") ["", ""]
      = CollectResult.err (requiredEmptyMsg "message") [] ∧
    coerceParam "message" "string" "" = Except.ok (GoValue.str "") :=
  ⟨rfl, rfl⟩

/-- C10 amended: an empty input on a required property never reaches type
coercion: the collector re-prompts once, so collection continues exactly as
if the re-entered non-empty value had been typed first, and a second empty
input aborts with the required-missing error before any type dispatch,
whatever the declared type. -/
theorem c10_amended_empty_required_reprompts :
    (∀ (name ty v : String) (rest : List String), goTrimSpace v ≠ "" →
      collectProps [(name, Json.obj [("type", Json.str ty)])] [name] [] ("" :: v :: rest)
        = collectProps [(name, Json.obj [("type", Json.str ty)])] [name] [] (v :: rest)) ∧
    (∀ name ty : String,
      collectProps [(name, Json.obj [("type", Json.str ty)])] [name] [] ["", ""]
        = CollectResult.err (requiredEmptyMsg name) []) := by
  constructor
  · intro name ty v rest hv
    have hv2 : (goTrimSpace v == "") = false := beq_eq_false_iff_ne.mpr hv
    simp [collectProps, List.contains, hv2, show goTrimSpace "" = "" from rfl]
  · intro name ty
    simp [collectProps, List.contains, show goTrimSpace "" = "" from rfl]

/-- C10 amended, witness: the re-prompt rule at a concrete boolean property. -/
theorem c10_amended_empty_required_reprompts_witness :
    goTrimSpace "yes" ≠ "" ∧
    collectProps [("flag", Json.obj [("type", Json.str "boolean")])] ["flag"] [] ["", "yes"]
      = collectProps [("flag", Json.obj [("type", Json.str "boolean")])] ["flag"] [] ["yes"] :=
  ⟨by decide, c10_amended_empty_required_reprompts.1 "flag" "boolean" "yes" [] (by decide)⟩

/-- Recovering the required-name list from its marshalled form. -/
theorem filterMap_str_map (req : List String) :
    (req.map Json.str).filterMap (fun x => match x with | Json.str s => some s | _ => none)
      = req := by
  induction req with
  | nil => rfl
  | cons a t ih => simp [List.filterMap_cons, ih]

/-- C7 counterexample: with two required properties and an input source
that runs dry after the first, the collector returns the partially
collected set as a success (the required second key is absent), so a
partial parameter set can be returned as a success. -/
theorem c7_counterexample :
    collectToolParameters twoReqSchema ["hi"]
      = CollectResult.ok [("alpha", GoValue.str "hi")] [] ∧
    requiredOf twoReqFields = ["alpha", "beta"] :=
  ⟨rfl, rfl⟩

/-- C7 amended: when the input source supplies one line per property, every
required property receives a non-empty value, and every supplied value
coerces, the collection succeeds and its key list is exactly the keys whose
values were supplied, omitted optional keys excluded; a coercion error
aborts the whole collection without returning collected values; the
full collector reduces to the property loop on such schemas.  (Only when
the input runs dry mid-collection can a partial set be returned as a
success, per the counterexample.) -/
theorem c7_amended_exact_keys :
    (∀ (props : List (String × Json)) (req : List String)
       (params0 : List (String × GoValue)) (inputs : List String),
      inputs.length = props.length →
      (∀ p ∈ props.zip inputs, goTrimSpace p.2 = "" → req.contains p.1.1 = false) →
      (∀ p ∈ props.zip inputs, goTrimSpace p.2 ≠ "" →
        ∃ v, coerceParam p.1.1 (propTypeOf p.1.2) (goTrimSpace p.2) = Except.ok v) →
      ∃ params, collectProps props req params0 inputs = CollectResult.ok params [] ∧
        params.map Prod.fst = params0.map Prod.fst ++
          (((props.zip inputs).filter fun p => goTrimSpace p.2 != "").map fun p => p.1.1)) ∧
    (∀ (props : List (String × Json)) (req : List String) (inputs : List String),
      props ≠ [] →
      collectToolParameters
          (Json.obj [("type", Json.str "object"), ("properties", Json.obj props),
                     ("required", Json.arr (req.map Json.str))]) inputs
        = collectProps props req [] inputs) ∧
    (∀ (name : String) (rest : List String),
      collectProps [(name, Json.obj [("type", Json.str "number")])] [] [] ("abc" :: rest)
        = CollectResult.err ("invalid number for " ++ name ++ ": " ++ "abc") rest) := by
  refine ⟨?_, ?_, ?_⟩
  · intro props
    induction props with
    | nil =>
      intro req params0 inputs hlen _ _
      have hnil : inputs = [] := List.length_eq_zero.mp hlen
      subst hnil
      exact ⟨params0, rfl, by simp⟩
    | cons hd tl ih =>
      intro req params0 inputs hlen hEmpty hCoerce
      obtain ⟨name, psch⟩ := hd
      cases inputs with
      | nil => exact absurd hlen (by simp)
      | cons i is =>
        have hlen2 : is.length = tl.length := by simpa using hlen
        have hzip : ((name, psch) :: tl).zip (i :: is) = ((name, psch), i) :: tl.zip is :=
          List.zip_cons_cons
        by_cases hi : goTrimSpace i = ""
        · have hreq : req.contains name = false := by
            have := hEmpty ((name, psch), i) (by rw [hzip]; exact List.mem_cons_self _ _) hi
            exact this
          obtain ⟨params, hP, hK⟩ := ih req params0 is hlen2
            (fun p hp h => hEmpty p (by rw [hzip]; exact List.mem_cons_of_mem _ hp) h)
            (fun p hp h => hCoerce p (by rw [hzip]; exact List.mem_cons_of_mem _ hp) h)
          refine ⟨params, ?_, ?_⟩
          · simp only [collectProps, hi, beq_self_eq_true, if_true, hreq]
            simpa using hP
          · have hbne : (goTrimSpace i != "") = false := by simp [hi]
            rw [hK, hzip, List.filter_cons, hbne]
            simp
        · obtain ⟨v, hv⟩ := hCoerce ((name, psch), i)
            (by rw [hzip]; exact List.mem_cons_self _ _) hi
          have hi2 : (goTrimSpace i == "") = false := beq_eq_false_iff_ne.mpr hi
          obtain ⟨params, hP, hK⟩ := ih req (params0 ++ [(name, v)]) is hlen2
            (fun p hp h => hEmpty p (by rw [hzip]; exact List.mem_cons_of_mem _ hp) h)
            (fun p hp h => hCoerce p (by rw [hzip]; exact List.mem_cons_of_mem _ hp) h)
          refine ⟨params, ?_, ?_⟩
          · simp only [collectProps, hi2, Bool.false_eq_true, if_false, hv]
            exact hP
          · have hbne2 : (goTrimSpace i != "") = true := by simp [hi]
            rw [hK, hzip, List.filter_cons, hbne2, if_pos rfl]
            simp [List.map_append]
  · intro props req inputs hne
    cases props with
    | nil => exact absurd rfl hne
    | cons p ps =>
      have hfind : jlookup [("type", Json.str "object"), ("properties", Json.obj (p :: ps)),
          ("required", Json.arr (req.map Json.str))] "required"
          = some (Json.arr (req.map Json.str)) := rfl
      have hreq : requiredOf [("type", Json.str "object"), ("properties", Json.obj (p :: ps)),
          ("required", Json.arr (req.map Json.str))] = req := by
        unfold requiredOf
        rw [hfind]
        exact filterMap_str_map req
      show collectProps (p :: ps)
          (requiredOf [("type", Json.str "object"), ("properties", Json.obj (p :: ps)),
            ("required", Json.arr (req.map Json.str))]) [] inputs
        = collectProps (p :: ps) req [] inputs
      rw [hreq]
  · intro name rest
    rfl

/-- C7 amended, witness: exactness at a concrete schema with one required
and one omitted optional property. -/
theorem c7_amended_exact_keys_witness :
    ∃ params,
      collectProps [("message", Json.obj [("type", Json.str "string")]),
                    ("extra", Json.obj [("type", Json.str "string")])]
          ["message"] [] ["hi", ""] = CollectResult.ok params [] ∧
      params.map Prod.fst = ["message"] := by
  obtain ⟨params, h1, h2⟩ := c7_amended_exact_keys.1
    [("message", Json.obj [("type", Json.str "string")]),
     ("extra", Json.obj [("type", Json.str "string")])]
    ["message"] [] ["hi", ""] rfl
    (by decide)
    (by
      intro p hp h
      rw [show ([("message", Json.obj [("type", Json.str "string")]),
            ("extra", Json.obj [("type", Json.str "string")])].zip ["hi", ""])
          = [(("message", Json.obj [("type", Json.str "string")]), "hi"),
             (("extra", Json.obj [("type", Json.str "string")]), "")] from rfl] at hp
      simp only [List.mem_cons, List.not_mem_nil, or_false] at hp
      rcases hp with h1 | h2
      · subst h1; exact ⟨GoValue.str "hi", rfl⟩
      · subst h2; exact absurd rfl h)
  refine ⟨params, h1, ?_⟩
  rw [h2]
  decide

/-- The empty trace satisfies the scope discipline. -/
theorem scopeInvariant_nil (cT ctr : Nat) : scopeInvariant cT ctr [] := by
  refine ⟨rfl, ?_, ?_⟩ <;> simp [submitSids]

/-- Lowering the counter bound preserves the scope discipline. -/
theorem scopeInvariant_mono (cT ctr ctr2 : Nat) (evs : List Event) (hle : ctr ≤ ctr2)
    (h : scopeInvariant cT ctr2 evs) : scopeInvariant cT ctr evs :=
  ⟨h.1, h.2.1, fun x hx => le_trans hle (h.2.2 x hx)⟩

/-- A non-submit event preserves the scope discipline. -/
theorem scopeInvariant_cons_other (cT ctr : Nat) (e : Event) (evs : List Event)
    (he : ∀ n a sc, e ≠ Event.submit n a sc)
    (h : scopeInvariant cT ctr evs) : scopeInvariant cT ctr (e :: evs) := by
  cases e
  case submit n a sc => exact absurd rfl (he n a sc)
  all_goals
    exact ⟨by simpa [submitBudgetsAll] using h.1,
      by simpa [submitSids] using h.2.1,
      by simpa [submitSids] using h.2.2⟩

/-- A submit event under the current counter's fresh scope preserves the
scope discipline when the tail satisfies it at the advanced counter. -/
theorem scopeInvariant_cons_submit (cT ctr : Nat) (n : String)
    (a : List (String × GoValue)) (evs : List Event)
    (h : scopeInvariant cT (ctr + 1) evs) :
    scopeInvariant cT ctr (Event.submit n a (Scope.mk cT ctr) :: evs) := by
  obtain ⟨h1, h2, h3⟩ := h
  have hsids : submitSids (Event.submit n a (Scope.mk cT ctr) :: evs)
      = ctr :: submitSids evs := by simp [submitSids, List.filterMap_cons]
  refine ⟨by simpa [submitBudgetsAll] using h1, ?_, ?_⟩
  · rw [hsids]
    refine List.chain'_cons'.mpr ⟨?_, h2⟩
    intro b hb
    exact Nat.lt_of_succ_le (h3 b (List.mem_of_mem_head? hb))
  · rw [hsids]
    intro x hx
    rcases List.mem_cons.mp hx with h | h
    · exact h ▸ Nat.le_refl ctr
    · exact le_trans (Nat.le_succ ctr) (h3 x h)

/-- The interactive loop obeys the scope discipline from any counter. -/
theorem runReplScopeInvariant (cT : Nat) (tools : List Tool) :
    ∀ (fuel : Nat) (lines : List String) (ctr : Nat),
      scopeInvariant cT ctr (runReplFuel fuel cT tools lines ctr) := by
  intro fuel
  induction fuel with
  | zero => intro lines ctr; exact scopeInvariant_nil cT ctr
  | succ fuel ih =>
    intro lines ctr
    cases lines with
    | nil => exact scopeInvariant_nil cT ctr
    | cons line rest =>
      cases hc : processReplCommand tools.length line with
      | skip => simp only [runReplFuel, hc]; exact ih rest ctr
      | exit => simp only [runReplFuel, hc]; exact scopeInvariant_nil cT ctr
      | help =>
        simp only [runReplFuel, hc]
        exact scopeInvariant_cons_other _ _ _ _ (fun n a sc h => Event.noConfusion h) (ih rest ctr)
      | list =>
        simp only [runReplFuel, hc]
        exact scopeInvariant_cons_other _ _ _ _ (fun n a sc h => Event.noConfusion h) (ih rest ctr)
      | unknown s =>
        simp only [runReplFuel, hc]
        exact scopeInvariant_cons_other _ _ _ _ (fun n a sc h => Event.noConfusion h) (ih rest ctr)
      | invalidNumber s =>
        simp only [runReplFuel, hc]
        exact scopeInvariant_cons_other _ _ _ _ (fun n a sc h => Event.noConfusion h) (ih rest ctr)
      | invoke idx =>
        simp only [runReplFuel, hc]
        cases hco : collectToolParameters (tools.getD idx (Tool.mk "" "" Json.null)).inputSchema rest with
        | ok ps r =>
          simp only [callToolWithTimeout, hco, List.singleton_append]
          exact scopeInvariant_cons_submit _ _ _ _ _ (ih r (ctr + 1))
        | err m r =>
          simp only [callToolWithTimeout, hco, List.singleton_append]
          exact scopeInvariant_cons_other _ _ _ _ (fun n a sc h => Event.noConfusion h)
            (scopeInvariant_mono _ _ _ _ (Nat.le_succ ctr) (ih r (ctr + 1)))
      | guided =>
        simp only [runReplFuel, hc]
        cases rest with
        | nil => exact scopeInvariant_nil cT ctr
        | cons sel rest2 =>
          dsimp only
          by_cases hs : (goTrimSpace sel == "cancel" || goTrimSpace sel == "") = true
          · rw [if_pos hs]
            exact ih rest2 ctr
          · rw [if_neg hs]
            cases ha : goAtoi (goTrimSpace sel) with
            | none =>
              simp only [ha]
              exact scopeInvariant_cons_other _ _ _ _ (fun n a sc h => Event.noConfusion h)
                (ih rest2 ctr)
            | some num =>
              simp only [ha]
              by_cases hb : (0 < num ∧ num ≤ (tools.length : Int))
              · have hcond : (decide (0 < num) && decide (num ≤ (tools.length : Int))) = true := by
                  simp [hb.1, hb.2]
                rw [if_pos hcond]
                cases hco : collectToolParameters
                    (tools.getD (num - 1).toNat (Tool.mk "" "" Json.null)).inputSchema rest2 with
                | ok ps r =>
                  simp only [callToolWithTimeout, hco, List.singleton_append]
                  exact scopeInvariant_cons_submit _ _ _ _ _ (ih r (ctr + 1))
                | err m r =>
                  simp only [callToolWithTimeout, hco, List.singleton_append]
                  exact scopeInvariant_cons_other _ _ _ _ (fun n a sc h => Event.noConfusion h)
                    (scopeInvariant_mono _ _ _ _ (Nat.le_succ ctr) (ih r (ctr + 1)))
              · have hcond : ¬((decide (0 < num) && decide (num ≤ (tools.length : Int))) = true) := by
                  simpa [Bool.and_eq_true, decide_eq_true_eq] using hb
                rw [if_neg hcond]
                exact scopeInvariant_cons_other _ _ _ _ (fun n a sc h => Event.noConfusion h)
                  (ih rest2 ctr)

/-- Rebuilding a string from its character data. -/
theorem stringMkData (s : String) : String.mk s.data = s := by cases s; rfl

/-- A successful digit-run parse implies a non-empty all-digit run. -/
theorem natOfDigits_all (ds : List Char) (m : Nat) (h : natOfDigits ds = some m) :
    ds ≠ [] ∧ ∀ c ∈ ds, c.isDigit = true := by
  unfold natOfDigits at h
  by_cases he : ds.isEmpty = true
  · rw [if_pos he] at h; exact absurd h (by simp)
  · rw [if_neg he] at h
    by_cases ha : ds.all Char.isDigit = true
    · rw [if_pos ha] at h
      exact ⟨fun hn => he (by simp [hn]), fun c hc => List.all_eq_true.mp ha c hc⟩
    · rw [if_neg ha] at h; exact absurd h (by simp)

/-- A successful Atoi input is non-empty and made of signs and digits. -/
theorem goAtoi_shape (s : String) (n : Int) (h : goAtoi s = some n) :
    s.data ≠ [] ∧ ∀ c ∈ s.data, signDigitB c = true := by
  unfold goAtoi at h
  cases hd : s.data with
  | nil => rw [hd] at h; exact absurd h (by simp)
  | cons c ds =>
    rw [hd] at h
    dsimp only at h
    refine ⟨by simp [hd], ?_⟩
    intro x hx
    by_cases h1 : (c == '+') = true
    · rw [if_pos h1] at h
      obtain ⟨m, hm⟩ : ∃ m, natOfDigits ds = some m := by
        cases hnd : natOfDigits ds
        · rw [hnd] at h; exact absurd h (by simp)
        · exact ⟨_, rfl⟩
      obtain ⟨-, hall⟩ := natOfDigits_all ds m hm
      rcases List.mem_cons.mp hx with hxc | hxd
      · subst hxc; simp [signDigitB, h1]
      · simp [signDigitB, hall x hxd]
    · rw [if_neg h1] at h
      by_cases h2 : (c == '-') = true
      · rw [if_pos h2] at h
        obtain ⟨m, hm⟩ : ∃ m, natOfDigits ds = some m := by
          cases hnd : natOfDigits ds
          · rw [hnd] at h; exact absurd h (by simp)
          · exact ⟨_, rfl⟩
        obtain ⟨-, hall⟩ := natOfDigits_all ds m hm
        rcases List.mem_cons.mp hx with hxc | hxd
        · subst hxc; simp [signDigitB, h2]
        · simp [signDigitB, hall x hxd]
      · rw [if_neg h2] at h
        obtain ⟨m, hm⟩ : ∃ m, natOfDigits (c :: ds) = some m := by
          cases hnd : natOfDigits (c :: ds)
          · rw [hnd] at h; exact absurd h (by simp)
          · exact ⟨_, rfl⟩
        obtain ⟨-, hall⟩ := natOfDigits_all _ m hm
        simp [signDigitB, hall x hx]

/-- Sign and digit characters are not whitespace. -/
theorem signDigit_not_space (c : Char) (h : signDigitB c = true) : goIsSpace c = false := by
  cases hsp : goIsSpace c
  · rfl
  · exfalso
    unfold goIsSpace at hsp
    simp only [Bool.or_eq_true, beq_iff_eq] at hsp
    rcases hsp with ((((rfl | rfl) | rfl) | rfl) | rfl) | rfl <;> exact absurd h (by decide)

/-- Trimming is the identity on a string without whitespace. -/
theorem trim_eq_self (s : String) (h : ∀ c ∈ s.data, goIsSpace c = false) :
    goTrimSpace s = s := by
  unfold goTrimSpace
  have h1 : s.data.dropWhile goIsSpace = s.data := by
    cases hd : s.data with
    | nil => rfl
    | cons a t =>
      have ha : a ∈ s.data := by rw [hd]; exact List.mem_cons_self a t
      simp [List.dropWhile_cons, h a ha]
  rw [h1]
  have h2 : s.data.reverse.dropWhile goIsSpace = s.data.reverse := by
    cases hr : s.data.reverse with
    | nil => rfl
    | cons a t =>
      have ha : a ∈ s.data := by rw [← List.mem_reverse, hr]; exact List.mem_cons_self a t
      simp [List.dropWhile_cons, h a ha]
  rw [h2, List.reverse_reverse]

/-- Trimming is the identity when the first and last characters are not
whitespace. -/
theorem trim_ends (a b : Char) (l : List Char) (ha : goIsSpace a = false)
    (hb : goIsSpace b = false) :
    goTrimSpace (String.mk (a :: (l ++ [b]))) = String.mk (a :: (l ++ [b])) := by
  unfold goTrimSpace
  rw [show (String.mk (a :: (l ++ [b]))).data = a :: (l ++ [b]) from rfl]
  have h1 : (a :: (l ++ [b])).dropWhile goIsSpace = a :: (l ++ [b]) := by
    simp [List.dropWhile_cons, ha]
  rw [h1]
  have hrev : (a :: (l ++ [b])).reverse = b :: (l.reverse ++ [a]) := by simp
  rw [hrev]
  have h2 : (b :: (l.reverse ++ [a])).dropWhile goIsSpace = b :: (l.reverse ++ [a]) := by
    simp [List.dropWhile_cons, hb]
  rw [h2]
  congr 1
  simp

/-- Field splitting of a non-empty whitespace-free run yields one field. -/
theorem fieldsAux_nonspace_ne (l : List Char) :
    (∀ c ∈ l, goIsSpace c = false) → l ≠ [] →
    ∀ acc, fieldsAux l acc = [String.mk (acc.reverse ++ l)] := by
  induction l with
  | nil => intro _ hne _; exact absurd rfl hne
  | cons a t ih =>
    intro h _ acc
    have ha : goIsSpace a = false := h a (List.mem_cons_self a t)
    rw [show fieldsAux (a :: t) acc
        = if goIsSpace a = true then
            (if acc.isEmpty then fieldsAux t [] else String.mk acc.reverse :: fieldsAux t [])
          else fieldsAux t (a :: acc) from rfl]
    rw [ha, if_neg (by simp)]
    cases t with
    | nil => simp [fieldsAux]
    | cons c t2 =>
      rw [ih (fun x hx => h x (List.mem_cons_of_mem a hx)) (by simp) (a :: acc)]
      simp

/-- Field splitting of a call command followed by one whitespace-free token. -/
theorem fields_call (s : String) (h : ∀ c ∈ s.data, goIsSpace c = false)
    (hne : s.data ≠ []) : goFields ("call " ++ s) = ["call", s] := by
  unfold goFields
  rw [show ("call " ++ s).data = 'c' :: 'a' :: 'l' :: 'l' :: ' ' :: s.data from rfl]
  rw [show fieldsAux ('c' :: 'a' :: 'l' :: 'l' :: ' ' :: s.data) []
      = String.mk ['c', 'a', 'l', 'l'] :: fieldsAux s.data [] from rfl]
  rw [fieldsAux_nonspace_ne s.data h hne []]
  rw [show String.mk ['c', 'a', 'l', 'l'] = "call" from rfl]
  rw [show ([] : List Char).reverse ++ s.data = s.data from rfl, stringMkData]

/-- A string of signs and digits differs from any token holding another
character. -/
theorem beq_false_of_signdigit (s t : String) (hall : ∀ c ∈ s.data, signDigitB c = true)
    (hbad : t.data.all signDigitB = false) : (s == t) = false := by
  rw [beq_eq_false_iff_ne]
  intro h
  subst h
  rw [List.all_eq_true.mpr hall] at hbad
  exact absurd hbad (by simp)

/-- C5: for every in-bounds index, the bare numeric token and the call
command with that index argument dispatch to the identical invocation
action (the same tool index handed to the same direct-call routine, hence
the identical parameter prompt sequence); a concrete three-tool session
shows the two scripts produce identical event traces. -/
theorem c5_bare_number_equals_call :
    (∀ (s : String) (n : Int) (numTools : Nat),
      goAtoi s = some n → 1 ≤ n → n ≤ (numTools : Int) →
      processReplCommand numTools s = ReplAction.invoke (n - 1).toNat ∧
      processReplCommand numTools ("call " ++ s) = ReplAction.invoke (n - 1).toNat) ∧
    runRepl 300 [Tool.mk "t1" "" Json.null, Tool.mk "t2" "" Json.null, Tool.mk "t3" "" Json.null]
        ["3"]
      = runRepl 300 [Tool.mk "t1" "" Json.null, Tool.mk "t2" "" Json.null, Tool.mk "t3" "" Json.null]
        ["call 3"] := by
  refine ⟨?_, rfl⟩
  intro s n numTools hAtoi hge hle
  obtain ⟨hne, hall⟩ := goAtoi_shape s n hAtoi
  have hns : ∀ c ∈ s.data, goIsSpace c = false := fun c hc => signDigit_not_space c (hall c hc)
  have htrim : goTrimSpace s = s := trim_eq_self s hns
  have hsne : (s == "") = false := by
    rw [beq_eq_false_iff_ne]
    intro h
    exact hne (by rw [h])
  have hfields : goFields s = [s] := by
    unfold goFields
    rw [fieldsAux_nonspace_ne s.data hns hne []]
    rw [show ([] : List Char).reverse ++ s.data = s.data from rfl, stringMkData]
  have hkw : ∀ t : String, t.data.all signDigitB = false → (s == t) = false :=
    fun t ht => beq_false_of_signdigit s t hall ht
  have hd1 : decide (0 < n) = true := decide_eq_true (by omega)
  have hd2 : decide (n ≤ (numTools : Int)) = true := decide_eq_true hle
  constructor
  · simp only [processReplCommand, htrim, hsne, hfields,
      hkw "exit" (by decide), hkw "quit" (by decide), hkw "q" (by decide),
      hkw "help" (by decide), hkw "h" (by decide), hkw "?" (by decide),
      hkw "list" (by decide), hkw "ls" (by decide), hkw "l" (by decide),
      hkw "call" (by decide), hkw "c" (by decide),
      List.headD_cons, List.tail_cons, hAtoi, hd1, hd2,
      Bool.or_self, Bool.or_false, Bool.false_or, Bool.false_eq_true, if_false,
      Bool.and_self, if_true]
  · obtain ⟨l2, b, hlb⟩ := (List.eq_nil_or_concat s.data).resolve_left hne
    have hbns : goIsSpace b = false := hns b (by rw [hlb]; simp)
    have heq : "call " ++ s = String.mk ('c' :: (('a' :: 'l' :: 'l' :: ' ' :: l2) ++ [b])) := by
      rw [← stringMkData ("call " ++ s)]
      congr 1
      rw [show ("call " ++ s).data = 'c' :: 'a' :: 'l' :: 'l' :: ' ' :: s.data from rfl, hlb]
      simp [List.concat_eq_append]
    have htr2 : goTrimSpace ("call " ++ s) = "call " ++ s := by
      rw [heq]
      exact trim_ends 'c' b ('a' :: 'l' :: 'l' :: ' ' :: l2) (by decide) hbns
    have hcne : ("call " ++ s == "") = false := by
      rw [beq_eq_false_iff_ne]
      intro h
      have h2 := congrArg String.data h
      rw [show ("call " ++ s).data = 'c' :: 'a' :: 'l' :: 'l' :: ' ' :: s.data from rfl] at h2
      exact absurd h2 (by simp)
    have hfields2 : goFields ("call " ++ s) = ["call", s] := fields_call s hns hne
    simp only [processReplCommand, htr2, hcne, hfields2,
      show (("call" : String) == "exit") = false from rfl,
      show (("call" : String) == "quit") = false from rfl,
      show (("call" : String) == "q") = false from rfl,
      show (("call" : String) == "help") = false from rfl,
      show (("call" : String) == "h") = false from rfl,
      show (("call" : String) == "?") = false from rfl,
      show (("call" : String) == "list") = false from rfl,
      show (("call" : String) == "ls") = false from rfl,
      show (("call" : String) == "l") = false from rfl,
      show (("call" : String) == "call") = true from rfl,
      List.headD_cons, List.tail_cons, hAtoi, hd1, hd2,
      Bool.or_self, Bool.or_false, Bool.false_or, Bool.true_or, Bool.or_true,
      Bool.false_eq_true, if_false, Bool.and_self, if_true]

/-- C5 witness: index three of five tools, by bare token and by call
command. -/
theorem c5_bare_number_equals_call_witness :
    goAtoi "3" = some 3 ∧ (1 : Int) ≤ 3 ∧ (3 : Int) ≤ ((5 : Nat) : Int) ∧
    processReplCommand 5 "3" = ReplAction.invoke 2 ∧
    processReplCommand 5 "call 3" = ReplAction.invoke 2 := by
  have h := c5_bare_number_equals_call.1 "3" 3 5 rfl (by decide) (by decide)
  exact ⟨rfl, by decide, by decide, h.1, h.2⟩

/-- C2: every tool invocation in a session runs under a fresh cancellable
scope whose budget is the call timeout: all submitted calls carry the
call-timeout budget, their scope serials are strictly increasing (so no
scope is ever reused by a later call), the direct-call mode runs under the
call-timeout context while discovery and listing use the connection
timeout, and the two defaults are the distinct 300 and 30 seconds. -/
theorem c2_fresh_call_scopes :
    (∀ (callTimeout : Nat) (tools : List Tool) (fuel : Nat) (lines : List String) (ctr : Nat),
      submitBudgetsAll callTimeout (runReplFuel fuel callTimeout tools lines ctr) = true ∧
      List.Chain' (· < ·) (submitSids (runReplFuel fuel callTimeout tools lines ctr)) ∧
      (submitSids (runReplFuel fuel callTimeout tools lines ctr)).all
        (fun x => decide (ctr ≤ x)) = true) ∧
    (∀ t ct : Nat, dispatchMode (Config.mk t ct false "calculate" false) = ModeCtx.directCall ct) ∧
    (∀ t ct : Nat, dispatchMode (Config.mk t ct false "" true) = ModeCtx.interactiveSession ct) ∧
    (∀ t ct : Nat, dispatchMode (Config.mk t ct true "" false) = ModeCtx.listOnlyCtx t) ∧
    (∀ t ct : Nat, dispatchMode (Config.mk t ct false "" false) = ModeCtx.discovery t) ∧
    defaultCallTimeout = 300 ∧ defaultTimeout = 30 ∧ defaultCallTimeout ≠ defaultTimeout := by
  refine ⟨?_, fun t ct => rfl, fun t ct => rfl, fun t ct => rfl, fun t ct => rfl, rfl, rfl,
    by decide⟩
  intro cT tools fuel lines ctr
  obtain ⟨h1, h2, h3⟩ := runReplScopeInvariant cT tools fuel lines ctr
  refine ⟨h1, h2, ?_⟩
  rw [List.all_eq_true]
  intro x hx
  rw [decide_eq_true_eq]
  exact h3 x hx

end MCPProbe

